import Mathlib

/-!
Shallow embedding of the `@velony/domain` TypeScript package: value objects,
entities, aggregate roots with a domain-event buffer, domain events, and the
`StoragePath` value object. Definitions mirror the TypeScript source files
(`value-object.ts`, `primitive-value-object.ts`, `entity.ts`,
`aggregate-root.ts`, `domain-event.ts`, `value-objects/storage-path.vo.ts`).
-/

namespace VelonyDomain

/-! ## JavaScript primitive values and strict equality

TypeScript `PrimitiveValueObject<T>` constrains `T extends string | number |
boolean` and compares with `===`. For `string` and `boolean`, `===` is value
equality. For `number` (an IEEE double), `===` is value equality on non-NaN
values while `NaN === NaN` is `false`; we model a JS number as either NaN or
an exact value (the non-NaN doubles are a subset of the rationals, and `===`
on them coincides with equality of the represented values). -/

/-- Model of a JavaScript `number`: `NaN`, or a (non-NaN) numeric value. -/
inductive JSNumber where
  | nan : JSNumber
  | num : Rat → JSNumber
deriving DecidableEq, Repr

/-- JavaScript strict equality `===` on `number`: `NaN` is equal to nothing,
two non-NaN numbers are strictly equal iff they have the same value. -/
def jsNumberStrictEq : JSNumber → JSNumber → Bool
  | .nan, _ => false
  | _, .nan => false
  | .num a, .num b => decide (a = b)

/-- Class coupling each admissible primitive type (`string`, `number`,
`boolean`) with its JavaScript strict-equality `===`. -/
class JSValue (T : Type) where
  strictEq : T → T → Bool

instance : JSValue String := ⟨fun a b => decide (a = b)⟩

instance : JSValue Bool := ⟨fun a b => decide (a = b)⟩

instance : JSValue JSNumber := ⟨jsNumberStrictEq⟩

/-! ## ValueObject / PrimitiveValueObject / Id

`ValueObject<T>` holds one protected immutable `_value` exposed by the `value`
getter; `PrimitiveValueObject<T>` adds `equals` (strict `===` comparison of
the wrapped values) and `toString`. `Id<T>` extends `PrimitiveValueObject<T>`
adding no runtime behavior (it only adds a nominal-typing brand). -/

/-- Embedding of `PrimitiveValueObject<T>` (which inherits its single `_value`
field from `ValueObject<T>`). -/
structure PrimitiveValueObject (T : Type) where
  _value : T
deriving Repr

/-- The `value` getter of `ValueObject`. -/
def PrimitiveValueObject.value (x : PrimitiveValueObject T) : T :=
  x._value

/-- `PrimitiveValueObject.equals`: `this._value === other._value`. -/
def PrimitiveValueObject.equals [JSValue T]
    (x other : PrimitiveValueObject T) : Bool :=
  JSValue.strictEq x._value other._value

/-- `Id<T> extends PrimitiveValueObject<T>` adds no runtime members. -/
abbrev Id (T : Type) := PrimitiveValueObject T

/-! ## Entity

`Entity<TIdentifier>` owns one identifier `_id`, set at construction;
`equals(other)` returns `this._id.equals(other._id)`. Subclasses may carry
arbitrary further fields; the type parameter `Rest` stands for those non-id
fields of a concrete subclass. -/

/-- Embedding of an `Entity` subclass: the inherited `_id` plus the
subclass's own non-id fields, abstracted as `rest`. -/
structure Entity (ID : Type) (Rest : Type) where
  _id : Id ID
  rest : Rest

/-- The `id` getter of `Entity`. -/
def Entity.id (a : Entity ID Rest) : Id ID :=
  a._id

/-- `Entity.equals`: `this._id.equals(other._id)`. -/
def Entity.equals [JSValue ID] (a other : Entity ID Rest) : Bool :=
  a._id.equals other._id

/-! ## JavaScript string helpers used by `StoragePath`

`storage-path.vo.ts` uses `value.startsWith('/')`, `value.includes('//')`,
`value.includes('..')`, `baseUrl.replace(/\/$/, '')` (a regex without the `g`
flag, so it removes at most the single trailing `/`), `value.split('.')`,
`.at(-1)` and `.toLowerCase()`. We embed each operation on the character
list of the string. -/

/-- Does the second character list start with the first one? -/
def charsLead : List Char → List Char → Bool
  | [], _ => true
  | _ :: _, [] => false
  | a :: as, b :: bs => a == b && charsLead as bs

/-- Does the character list `s` contain `pat` as a contiguous run? -/
def charsInside (pat : List Char) : List Char → Bool
  | [] => charsLead pat []
  | c :: rest => charsLead pat (c :: rest) || charsInside pat rest

/-- JS `s.startsWith(pat)`. -/
def jsStartsWith (s pat : String) : Bool :=
  charsLead pat.toList s.toList

/-- JS `s.includes(pat)`: substring containment. -/
def jsIncludes (s pat : String) : Bool :=
  charsInside pat.toList s.toList

/-- JS `s.split(sep)` for a one-character separator `sep`: the split of `s`
at every occurrence of `sep`; never empty, `[s]` when `sep` does not occur. -/
def jsSplitChar (sep : Char) : List Char → List (List Char)
  | [] => [[]]
  | c :: rest =>
    if c = sep then [] :: jsSplitChar sep rest
    else
      match jsSplitChar sep rest with
      | [] => [[c]]
      | h :: t => (c :: h) :: t

/-- JS `s.toLowerCase()` restricted to ASCII (the only case the repository
exercises): lowercase each character. -/
def jsToLowerCase (s : List Char) : List Char :=
  s.map Char.toLower

/-- JS `baseUrl.replace(/\/$/, '')`: the regex matches one `/` at the end of
the string, and without the `g` flag `replace` rewrites at most one match, so
this removes exactly one trailing `/` when present. -/
def jsReplaceTrailingSlash (s : String) : String :=
  if s.toList.getLast? = some '/' then String.mk s.toList.dropLast else s

/-! ## StoragePath -/

/-- Embedding of `StoragePath extends PrimitiveValueObject<string>`: the
single inherited `_value` field, reachable only through `StoragePath.create`.
-/
structure StoragePath where
  _value : String
deriving Repr, DecidableEq

/-- `StoragePath.create(value)`: validates `value` and either throws (modelled
as `Except.error` carrying the thrown message) or returns the wrapper over the
unchanged `value`. -/
def StoragePath.create (value : String) : Except String StoragePath :=
  if jsStartsWith value "/" then
    .error "Storage path should not start with /"
  else if jsIncludes value "//" then
    .error "Storage path contains invalid double slashes"
  else if jsIncludes value ".." then
    .error "Storage path cannot contain .."
  else
    .ok ⟨value⟩

/-- `StoragePath.toUrl(baseUrl)`: template literal
`${baseUrl.replace(/\/$/, '')}/${this._value}`. -/
def StoragePath.toUrl (p : StoragePath) (baseUrl : String) : String :=
  jsReplaceTrailingSlash baseUrl ++ "/" ++ p._value

/-- The `extension` getter: `this._value.split('.').at(-1)?.toLowerCase() ??
''`. `split` never yields an empty array, so `at(-1)` is the last part. -/
def StoragePath.extension (p : StoragePath) : String :=
  match (jsSplitChar '.' p._value.toList).getLast? with
  | some part => String.mk (jsToLowerCase part)
  | none => ""

/-! ## DomainEvent

`domain-event.ts` constructs an event from a type tag (the class's static
`type` / the registry key), the producing aggregate's identifier and a
payload; the constructor itself assigns `this.id = uuidv7()` and
`this.occurredAt = new Date()` and stores the inputs unchanged. The
constructor has no failure path and inspects neither the payload nor the
aggregate identifier. -/

/-- Modelled from the spec: the `uuid` package's `v7` generator (external
dependency, not under `src/`) is treated as an opaque source of fresh
identifiers, "guaranteed unique across the process and ordered consistently
with creation order"; we model the source as a counter whose draws are
strictly increasing, and an identifier as the counter value drawn. -/
structure IdSource where
  next : Nat

/-- Modelled from the spec: drawing from the fresh-identifier source yields
the current identifier and advances the source. -/
def IdSource.draw (g : IdSource) : Nat × IdSource :=
  (g.next, ⟨g.next + 1⟩)

/-- Embedding of a constructed `DomainEvent`: the readonly fields `type`,
`id`, `aggregateId`, `payload`, `occurredAt`, all fixed at construction. -/
structure DomainEvent (AggId : Type) (Payload : Type) where
  type : String
  id : Nat
  aggregateId : AggId
  payload : Payload
  occurredAt : Nat

/-- The `DomainEvent` constructor: given the tag, the aggregate identifier,
the payload, the identifier source and the current clock reading, it always
produces an event (no failure path), drawing a fresh `id`, stamping
`occurredAt` with the clock, and storing tag, aggregate identifier and
payload unchanged and uninspected. -/
def mkDomainEvent (type : String) (aggregateId : AggId) (payload : Payload)
    (g : IdSource) (now : Nat) : DomainEvent AggId Payload × IdSource :=
  let drawn := g.draw
  ({ type := type, id := drawn.fst, aggregateId := aggregateId,
     payload := payload, occurredAt := now }, drawn.snd)

/-- A process trace of event constructions: each element of `inputs` is the
(tag, aggregate identifier, payload, clock reading) of one construction,
performed in list order against the evolving identifier source. Returns the
constructed events in creation order with the final source state. -/
def buildEvents (g : IdSource) :
    List (String × AggId × Payload × Nat) →
    List (DomainEvent AggId Payload) × IdSource
  | [] => ([], g)
  | (t, a, p, n) :: rest =>
    let made := mkDomainEvent t a p g n
    let built := buildEvents made.snd rest
    (made.fst :: built.fst, built.snd)

/-! ## AggregateRoot

`aggregate-root.ts`: `AggregateRoot` extends `Entity` and owns the private
mutable array `_domainEvents`, initialized to `[]`. `pushDomainEvent` appends
to the tail; `pullDomainEvents` copies the array, resets it to `[]` and
returns the copy. We embed the instance state explicitly and each method as a
state transformer. Events in the buffer are the `DomainEvent<any>[]` of the
source; the element type is abstracted as `E`. -/

/-- Embedding of an `AggregateRoot` instance: the inherited `Entity` fields
plus the private `_domainEvents` buffer. -/
structure AggregateRoot (ID Rest E : Type) extends Entity ID Rest where
  _domainEvents : List E

/-- `pushDomainEvent(event)`: `this._domainEvents.push(event)` appends at the
tail. -/
def AggregateRoot.pushDomainEvent (a : AggregateRoot ID Rest E) (event : E) :
    AggregateRoot ID Rest E :=
  { a with _domainEvents := a._domainEvents ++ [event] }

/-- `pullDomainEvents()`: copies the buffer, resets it to `[]`, and returns
the copy — both effects of the one method body. -/
def AggregateRoot.pullDomainEvents (a : AggregateRoot ID Rest E) :
    List E × AggregateRoot ID Rest E :=
  (a._domainEvents, { a with _domainEvents := [] })

/-- Specification-side comparison definition for the `toUrl` refinement claim,
following the spec's words: "`toUrl(base)` = base with any trailing separators
stripped [all of them], concatenated with one separator and the path value". -/
def specToUrl (base : String) (p : StoragePath) : String :=
  String.mk (base.toList.reverse.dropWhile (fun c => c == '/')).reverse
    ++ "/" ++ p._value

/-! ## Theorems -/

/-- Folding `pushDomainEvent` over a list appends exactly that list to the
tail of the buffer, in order. -/
theorem foldl_push_buffer (es : List E) (a : AggregateRoot ID Rest E) :
    (es.foldl AggregateRoot.pushDomainEvent a)._domainEvents
      = a._domainEvents ++ es := by
  induction es generalizing a with
  | nil => simp
  | cons e rest ih =>
    simp [List.foldl_cons, ih, AggregateRoot.pushDomainEvent]

/-- C1: for every `AggregateRoot` instance whose buffer was just drained (or
freshly constructed, i.e. empty) and every sequence of `pushDomainEvent`
calls, `pullDomainEvents` returns exactly the pushed events in insertion
order and leaves the buffer empty, and an immediately following pull with no
intervening push returns the empty sequence — so no event is returned by two
pulls and no pushed event is missing from the pull's result. -/
theorem aggregate_pull_drains_exactly (a : AggregateRoot ID Rest E)
    (es : List E) (h : a._domainEvents = []) :
    ((es.foldl AggregateRoot.pushDomainEvent a).pullDomainEvents).fst = es
    ∧ ((es.foldl AggregateRoot.pushDomainEvent a).pullDomainEvents).snd._domainEvents
        = []
    ∧ (((es.foldl AggregateRoot.pushDomainEvent a).pullDomainEvents).snd.pullDomainEvents).fst
        = [] := by
  refine ⟨?_, rfl, rfl⟩
  simp [AggregateRoot.pullDomainEvents, foldl_push_buffer, h]

/-- Witness for C1 at a concrete aggregate with an empty buffer and the
two-push batch `[1, 2]`. -/
theorem aggregate_pull_drains_exactly_witness :
    ((⟨⟨⟨"agg"⟩, ()⟩, []⟩ : AggregateRoot String Unit Nat)._domainEvents = [])
    ∧ ((([1, 2].foldl AggregateRoot.pushDomainEvent
          (⟨⟨⟨"agg"⟩, ()⟩, []⟩ : AggregateRoot String Unit Nat)).pullDomainEvents).fst
        = [1, 2]
      ∧ (([1, 2].foldl AggregateRoot.pushDomainEvent
          (⟨⟨⟨"agg"⟩, ()⟩, []⟩ : AggregateRoot String Unit Nat)).pullDomainEvents).snd._domainEvents
        = []
      ∧ ((([1, 2].foldl AggregateRoot.pushDomainEvent
          (⟨⟨⟨"agg"⟩, ()⟩, []⟩ : AggregateRoot String Unit Nat)).pullDomainEvents).snd.pullDomainEvents).fst
        = []) :=
  ⟨rfl, aggregate_pull_drains_exactly ⟨⟨⟨"agg"⟩, ()⟩, []⟩ [1, 2] rfl⟩

/-- C2: entity equality holds exactly when the identifiers are equal under
the identifier's own `equals`, and it is independent of every non-id field
(replacing the non-id fields of either side arbitrarily never changes the
result); over string identifiers this means two entities are `equals` exactly
when their id values coincide — so identical non-id fields with different ids
compare unequal, and identical ids with different non-id fields compare
equal. -/
theorem entity_equals_iff_id_equals :
    (∀ (ID Rest : Type) [JSValue ID] (a b : Entity ID Rest),
      (a.equals b = true ↔ a.id.equals b.id = true)
      ∧ ∀ (r r' : Rest), (Entity.mk a._id r).equals (Entity.mk b._id r') = a.equals b)
    ∧ (∀ (Rest : Type) (a b : Entity String Rest),
      a.equals b = true ↔ a._id._value = b._id._value) := by
  refine ⟨fun ID Rest inst a b => ⟨Iff.rfl, fun r r' => rfl⟩, fun Rest a b => ?_⟩
  simp [Entity.equals, PrimitiveValueObject.equals, JSValue.strictEq]

/-- C3: `PrimitiveValueObject.equals` is strict `===` comparison of the two
wrapped primitive values: for strings and booleans it holds exactly when the
wrapped values are equal, and for numbers exactly when both sides wrap the
same non-NaN numeric value. -/
theorem pvo_equals_strict :
    (∀ (T : Type) [JSValue T] (x y : PrimitiveValueObject T),
      x.equals y = JSValue.strictEq x.value y.value)
    ∧ (∀ x y : PrimitiveValueObject String, x.equals y = true ↔ x.value = y.value)
    ∧ (∀ x y : PrimitiveValueObject Bool, x.equals y = true ↔ x.value = y.value)
    ∧ (∀ x y : PrimitiveValueObject JSNumber,
      x.equals y = true ↔ ∃ q : Rat, x.value = .num q ∧ y.value = .num q) := by
  refine ⟨fun T inst x y => rfl, fun x y => ?_, fun x y => ?_, fun x y => ?_⟩
  · simp [PrimitiveValueObject.equals, PrimitiveValueObject.value, JSValue.strictEq]
  · simp [PrimitiveValueObject.equals, PrimitiveValueObject.value, JSValue.strictEq]
  · obtain ⟨v⟩ := x
    obtain ⟨w⟩ := y
    cases v <;> cases w <;>
      simp [PrimitiveValueObject.equals, PrimitiveValueObject.value,
        JSValue.strictEq, jsNumberStrictEq]
    exact eq_comm

/-- C9: `equals` on number value objects is not reflexive: a value object
wrapping NaN is not `equals` to itself (strict `===` makes `NaN` unequal to
itself), while every value object wrapping a non-NaN number is `equals` to
itself. -/
theorem pvo_number_equals_nan_irreflexive :
    (∀ x : PrimitiveValueObject JSNumber, x._value = .nan → x.equals x = false)
    ∧ (∀ x : PrimitiveValueObject JSNumber, x._value ≠ .nan → x.equals x = true) := by
  constructor
  · intro x h
    simp [PrimitiveValueObject.equals, JSValue.strictEq, h, jsNumberStrictEq]
  · intro x h
    obtain ⟨v⟩ := x
    cases v with
    | nan => exact absurd rfl h
    | num q =>
      simp [PrimitiveValueObject.equals, JSValue.strictEq, jsNumberStrictEq]

/-- Witness for C9 at the NaN wrapper and at a wrapper of the number 2. -/
theorem pvo_number_equals_nan_irreflexive_witness :
    ((⟨.nan⟩ : PrimitiveValueObject JSNumber).equals ⟨.nan⟩ = false)
    ∧ ((⟨.num 2⟩ : PrimitiveValueObject JSNumber).equals ⟨.num 2⟩ = true) :=
  ⟨pvo_number_equals_nan_irreflexive.1 ⟨.nan⟩ rfl,
   pvo_number_equals_nan_irreflexive.2 ⟨.num 2⟩ (by decide)⟩

/-- C4: `StoragePath.create` validates in fixed order — leading separator,
then doubled separator, then parent reference — failing with that rule's own
error message and surfacing no later rule's error once an earlier rule fires;
the three messages are pairwise distinct; and when no rule is violated it
returns the wrapper whose stored value is the input unchanged. -/
theorem storagePath_create_rule_order :
    (∀ value : String,
      (jsStartsWith value "/" = true →
        StoragePath.create value = .error "Storage path should not start with /")
      ∧ (jsStartsWith value "/" = false → jsIncludes value "//" = true →
        StoragePath.create value = .error "Storage path contains invalid double slashes")
      ∧ (jsStartsWith value "/" = false → jsIncludes value "//" = false →
          jsIncludes value ".." = true →
        StoragePath.create value = .error "Storage path cannot contain ..")
      ∧ (jsStartsWith value "/" = false → jsIncludes value "//" = false →
          jsIncludes value ".." = false →
        StoragePath.create value = .ok ⟨value⟩))
    ∧ ("Storage path should not start with /" : String)
        ≠ "Storage path contains invalid double slashes"
    ∧ ("Storage path should not start with /" : String)
        ≠ "Storage path cannot contain .."
    ∧ ("Storage path contains invalid double slashes" : String)
        ≠ "Storage path cannot contain .." := by
  refine ⟨fun value => ⟨?_, ?_, ?_, ?_⟩, by decide, by decide, by decide⟩
  · intro h1
    simp [StoragePath.create, h1]
  · intro h1 h2
    simp [StoragePath.create, h1, h2]
  · intro h1 h2 h3
    simp [StoragePath.create, h1, h2, h3]
  · intro h1 h2 h3
    simp [StoragePath.create, h1, h2, h3]

/-- Witness for C4 at the spec's four sample inputs, one per branch. -/
theorem storagePath_create_rule_order_witness :
    StoragePath.create "/x" = .error "Storage path should not start with /"
    ∧ StoragePath.create "a//b" = .error "Storage path contains invalid double slashes"
    ∧ StoragePath.create "a/../b" = .error "Storage path cannot contain .."
    ∧ StoragePath.create "a/b.txt" = .ok ⟨"a/b.txt"⟩ :=
  ⟨(storagePath_create_rule_order.1 "/x").1 (by decide),
   (storagePath_create_rule_order.1 "a//b").2.1 (by decide) (by decide),
   (storagePath_create_rule_order.1 "a/../b").2.2.1 (by decide) (by decide) (by decide),
   (storagePath_create_rule_order.1 "a/b.txt").2.2.2 (by decide) (by decide) (by decide)⟩

/-- C5 (code bug evaluation): on a stored value with no '.' at all, the
`extension` getter does not return the empty string — `split('.')` yields the
single-element array `[value]`, whose last element is the whole value, so the
getter returns the entire value lowercased ("a/b" here), contradicting both
the spec and the getter's own doc comment example
(`StoragePath.create('files/readme').extension // ''`); on values with a dot
it does return the lowercased substring after the last dot. -/
theorem storagePath_extension_no_dot_bug :
    (StoragePath.create "a/b").map StoragePath.extension = .ok "a/b"
    ∧ (StoragePath.create "a/b").map StoragePath.extension ≠ .ok ""
    ∧ (StoragePath.create "files/readme").map StoragePath.extension
        = .ok "files/readme"
    ∧ (StoragePath.create "a/b.TXT").map StoragePath.extension = .ok "txt" := by
  refine ⟨by rfl, ?_, by rfl, by rfl⟩
  intro h
  rw [show (StoragePath.create "a/b").map StoragePath.extension = Except.ok "a/b"
    from rfl] at h
  injection h with h2
  exact absurd h2 (by decide)

/-- C6 (counterexample): `toUrl` does not strip ALL trailing separators from
the base — the `replace` call rewrites at most one match of the anchored
regex, so a base ending in two separators keeps one of them, while the spec's
all-stripping reading predicts a single separator at the join. -/
theorem storagePath_toUrl_counterexample :
    StoragePath.create "a/b" = .ok ⟨"a/b"⟩
    ∧ (StoragePath.mk "a/b").toUrl "https://h//" = "https://h//a/b"
    ∧ specToUrl "https://h//" (StoragePath.mk "a/b") = "https://h/a/b"
    ∧ ("https://h//a/b" : String) ≠ "https://h/a/b" := by
  refine ⟨by rfl, by rfl, by rfl, by decide⟩

/-- C10: the parent-reference rule of `StoragePath.create` is a plain
substring check for "..": every input containing ".." anywhere that passes
the two earlier checks fails with the parent-directory error — including
"a..b" and "file....txt", none of whose separator-delimited segments equals
"..". -/
theorem storagePath_parent_rule_substring :
    (∀ value : String,
      jsStartsWith value "/" = false → jsIncludes value "//" = false →
      jsIncludes value ".." = true →
      StoragePath.create value = .error "Storage path cannot contain ..")
    ∧ StoragePath.create "a..b" = .error "Storage path cannot contain .."
    ∧ StoragePath.create "file....txt" = .error "Storage path cannot contain .."
    ∧ (jsSplitChar '/' "a..b".toList).all (fun part => !(part == "..".toList)) = true
    ∧ (jsSplitChar '/' "file....txt".toList).all (fun part => !(part == "..".toList))
        = true := by
  refine ⟨fun value h1 h2 h3 => ?_, by rfl, by rfl, by decide, by decide⟩
  simp [StoragePath.create, h1, h2, h3]

/-- Witness for C10 at the segment-free input "a..b". -/
theorem storagePath_parent_rule_substring_witness :
    StoragePath.create "a..b" = .error "Storage path cannot contain .." :=
  storagePath_parent_rule_substring.1 "a..b" (by decide) (by decide) (by decide)

/-- A list whose `takeWhile` is empty is left unchanged by `dropWhile`. -/
theorem dropWhile_eq_self_of_takeWhile_nil {p : Char → Bool} {t : List Char}
    (h : t.takeWhile p = []) : t.dropWhile p = t := by
  cases t with
  | nil => rfl
  | cons c rest =>
    by_cases hc : p c = true
    · simp [List.takeWhile_cons, hc] at h
    · simp [List.dropWhile_cons, hc]

/-- On a character list with at most one trailing '/', removing the last
character when it is '/' agrees with removing every trailing '/'. -/
theorem stripOne_eq_stripAll (l : List Char)
    (h : (l.reverse.takeWhile (fun c => c == '/')).length ≤ 1) :
    (if l.getLast? = some '/' then l.dropLast else l)
      = (l.reverse.dropWhile (fun c => c == '/')).reverse := by
  cases hr : l.reverse with
  | nil =>
    have hl : l = [] := by simpa using congrArg List.reverse hr
    subst hl
    simp
  | cons c t =>
    have hl : l = t.reverse ++ [c] := by simpa using congrArg List.reverse hr
    subst hl
    by_cases hc : c = '/'
    · subst hc
      have htake : t.takeWhile (fun c => c == '/') = [] := by
        simp [List.reverse_append, List.takeWhile_cons] at h
        cases t with
        | nil => rfl
        | cons d rest =>
          have hd : ¬ d = '/' := by simpa using h (by simp)
          simp [List.takeWhile_cons, hd]
      have hdrop : t.dropWhile (fun c => c == '/') = t :=
        dropWhile_eq_self_of_takeWhile_nil htake
      simp [List.getLast?_concat, List.dropLast_concat, List.reverse_append,
        List.dropWhile_cons, hdrop]
    · simp [List.getLast?_concat, List.reverse_append, List.dropWhile_cons, hc]

/-- When the base has at most one trailing '/', removing one trailing '/'
(what the code's `replace` does) agrees with removing all trailing '/'
(what the spec asks for). -/
theorem replaceTrailing_eq_dropAll_of_le_one (base : String)
    (h : (base.toList.reverse.takeWhile (fun c => c == '/')).length ≤ 1) :
    jsReplaceTrailingSlash base =
      String.mk ((base.toList.reverse.dropWhile (fun c => c == '/')).reverse) := by
  obtain ⟨l⟩ := base
  replace h : (l.reverse.takeWhile (fun c => c == '/')).length ≤ 1 := h
  show (if l.getLast? = some '/' then String.mk l.dropLast else String.mk l)
    = String.mk ((l.reverse.dropWhile (fun c => c == '/')).reverse)
  rw [← apply_ite String.mk]
  exact congrArg String.mk (stripOne_eq_stripAll l h)

/-- C6 (amended): `toUrl(base)` strips at most ONE trailing separator from
the base — exactly the last character when the base ends with a separator,
nothing otherwise — then joins with one separator and the stored value; on
bases with at most one trailing separator this agrees with the spec's
strip-all-trailing-separators description, and in particular
`create("a/b").toUrl("https://h/")` is "https://h/a/b". -/
theorem storagePath_toUrl_strips_one (p : StoragePath) (base : String) :
    (base.toList.getLast? = some '/' →
      p.toUrl base = String.mk base.toList.dropLast ++ "/" ++ p._value)
    ∧ (base.toList.getLast? ≠ some '/' →
      p.toUrl base = base ++ "/" ++ p._value)
    ∧ ((base.toList.reverse.takeWhile (fun c => c == '/')).length ≤ 1 →
      p.toUrl base = specToUrl base p)
    ∧ (StoragePath.mk "a/b").toUrl "https://h/" = "https://h/a/b" := by
  refine ⟨?_, ?_, ?_, by rfl⟩
  · intro h
    replace h : base.data.getLast? = some '/' := h
    simp [StoragePath.toUrl, jsReplaceTrailingSlash, String.toList, h]
  · intro h
    replace h : base.data.getLast? ≠ some '/' := h
    simp [StoragePath.toUrl, jsReplaceTrailingSlash, String.toList, h]
  · intro h
    show jsReplaceTrailingSlash base ++ "/" ++ p._value = _
    rw [replaceTrailing_eq_dropAll_of_le_one base h]
    rfl

/-- Witness for C6 (amended) at the stored value "a/b" with a one-trailing-
separator base and with a separator-free base. -/
theorem storagePath_toUrl_strips_one_witness :
    (StoragePath.mk "a/b").toUrl "https://h/"
      = String.mk "https://h/".toList.dropLast ++ "/" ++ "a/b"
    ∧ (StoragePath.mk "a/b").toUrl "https://h" = "https://h" ++ "/" ++ "a/b"
    ∧ (StoragePath.mk "a/b").toUrl "https://h/" = specToUrl "https://h/" ⟨"a/b"⟩ :=
  ⟨(storagePath_toUrl_strips_one ⟨"a/b"⟩ "https://h/").1 (by decide),
   (storagePath_toUrl_strips_one ⟨"a/b"⟩ "https://h").2.1 (by decide),
   (storagePath_toUrl_strips_one ⟨"a/b"⟩ "https://h/").2.2.1 (by decide)⟩

/-- Every event built later in a construction trace has an identifier at
least the source's current counter. -/
theorem buildEvents_id_lower {AggId Payload : Type} (g : IdSource)
    (inputs : List (String × AggId × Payload × Nat)) :
    ∀ e ∈ (buildEvents g inputs).fst, g.next ≤ e.id := by
  induction inputs generalizing g with
  | nil =>
    intro e he
    simp [buildEvents] at he
  | cons x rest ih =>
    obtain ⟨t, a, p, n⟩ := x
    intro e he
    simp only [buildEvents, mkDomainEvent, IdSource.draw, List.mem_cons] at he
    rcases he with he | he
    · subst he
      exact Nat.le_refl _
    · have := ih ⟨g.next + 1⟩ e he
      simp only at this
      omega

/-- C7: along any trace of `DomainEvent` constructions in one process, an
event created strictly before another carries a strictly smaller identifier
(the list of built events is pairwise ordered by id), and the assigned
identifiers are pairwise distinct. -/
theorem domainEvent_ids_ordered {AggId Payload : Type} (g : IdSource)
    (inputs : List (String × AggId × Payload × Nat)) :
    ((buildEvents g inputs).fst).Pairwise (fun e1 e2 => e1.id < e2.id)
    ∧ ((buildEvents g inputs).fst.map (fun e => e.id)).Nodup := by
  have hpair : ∀ (g : IdSource) (inputs : List (String × AggId × Payload × Nat)),
      ((buildEvents g inputs).fst).Pairwise (fun e1 e2 => e1.id < e2.id) := by
    intro g inputs
    induction inputs generalizing g with
    | nil => simp [buildEvents]
    | cons x rest ih =>
      obtain ⟨t, a, p, n⟩ := x
      simp only [buildEvents, mkDomainEvent, IdSource.draw]
      refine List.Pairwise.cons ?_ (ih ⟨g.next + 1⟩)
      intro e he
      have hle := buildEvents_id_lower ⟨g.next + 1⟩ rest e he
      simp only at hle ⊢
      omega
  refine ⟨hpair g inputs, ?_⟩
  have hmap : ((buildEvents g inputs).fst.map (fun e => e.id)).Pairwise (· < ·) :=
    List.pairwise_map.mpr (hpair g inputs)
  exact hmap.imp (fun h => Nat.ne_of_lt h)

/-- C8: `DomainEvent` construction is total over well-typed inputs — for
every tag, aggregate identifier, payload, identifier-source state and clock
reading it produces an event (no failure path), assigning the fresh
identifier and the current timestamp and storing the tag, aggregate
identifier and payload unchanged with no inspection of the payload's shape;
`pushDomainEvent` and `pullDomainEvents` are likewise total, with their full
effect given by these equations. -/
theorem domainEvent_construction_total {AggId Payload : Type} (tag : String)
    (aggregateId : AggId) (payload : Payload) (g : IdSource) (now : Nat) :
    (mkDomainEvent tag aggregateId payload g now).fst.type = tag
    ∧ (mkDomainEvent tag aggregateId payload g now).fst.id = g.next
    ∧ (mkDomainEvent tag aggregateId payload g now).fst.aggregateId = aggregateId
    ∧ (mkDomainEvent tag aggregateId payload g now).fst.payload = payload
    ∧ (mkDomainEvent tag aggregateId payload g now).fst.occurredAt = now
    ∧ (mkDomainEvent tag aggregateId payload g now).snd.next = g.next + 1
    ∧ (∀ (ID Rest E : Type) (a : AggregateRoot ID Rest E) (e : E),
        (a.pushDomainEvent e)._domainEvents = a._domainEvents ++ [e])
    ∧ (∀ (ID Rest E : Type) (a : AggregateRoot ID Rest E),
        a.pullDomainEvents = (a._domainEvents, { a with _domainEvents := [] })) :=
  ⟨rfl, rfl, rfl, rfl, rfl, rfl, fun _ _ _ _ _ => rfl, fun _ _ _ _ => rfl⟩

end VelonyDomain